import Mathlib

/-!
Shallow embedding of the workflow-engine core (`WorkflowEngine` in the
backend source) and of the built-in node implementations
(`HTTPNode`, `DatabaseNode`, `ConditionalNode`, `TransformerNode`,
`BaseNode.handleError`), together with theorems settling the spec claims.

JavaScript values are modelled by the inductive `JsValue`; JavaScript
objects are association lists that preserve insertion order, with
`mapSet` mirroring property assignment (update in place, else append)
and `mapGet` / `jsIndex` mirroring property lookup.  Machine `Date`
timestamps are threaded as opaque strings; `uuid` generation is threaded
as an explicit identifier argument.  Asynchronous effects (the `axios`
call, the `pg` pool query, the `vm2` sandbox, `RegExp.test`) are
parameters of type `... → Except String _`: an `Except.error` models a
thrown / rejected JavaScript error with its message.
-/

/-- Model of a JavaScript (JSON-like) runtime value. `undefined` is the
JavaScript `undefined`, distinct from `null`; objects are ordered
association lists. -/
inductive JsValue where
  | null
  | undefined
  | bool (b : Bool)
  | num (n : Int)
  | str (s : String)
  | obj (fields : List (String × JsValue))

/-- Lookup of the first binding of a key in an association list
(JavaScript property lookup on our ordered-object model). -/
def mapGet {α : Type} : List (String × α) → String → Option α
  | [], _ => none
  | (k', v) :: rest, k => if k' = k then some v else mapGet rest k

/-- JavaScript `Map.set` / object property assignment: replace the value
of an existing key in place, otherwise append the binding at the end. -/
def mapSet {α : Type} : List (String × α) → String → α → List (String × α)
  | [], k, v => [(k, v)]
  | (k', v') :: rest, k, v =>
      if k' = k then (k, v) :: rest else (k', v') :: mapSet rest k v

/-- JavaScript `Object.prototype.hasOwnProperty` on the ordered-object model. -/
def hasOwnProperty (fields : List (String × JsValue)) (k : String) : Bool :=
  (mapGet fields k).isSome

/-- JavaScript property read `fields[k]`: the stored value, or `undefined`
when the key is absent. -/
def jsIndex (fields : List (String × JsValue)) (k : String) : JsValue :=
  (mapGet fields k).getD .undefined

/-- JavaScript truthiness of a value. -/
def truthy : JsValue → Bool
  | .null => false
  | .undefined => false
  | .bool b => b
  | .num n => n != 0
  | .str s => s != ""
  | .obj _ => true

/-- JavaScript string coercion of a value (as used by
`String.prototype.replace` on a callback result). -/
def jsToString : JsValue → String
  | .null => "null"
  | .undefined => "undefined"
  | .bool b => if b then "true" else "false"
  | .num n => toString n
  | .str s => s
  | .obj _ => "[object Object]"

/-- JavaScript `ToNumber` coercion, with `none` playing the role of `NaN`.
Numbers are modelled as integers. -/
def jsToNumber : JsValue → Option Int
  | .null => some 0
  | .undefined => none
  | .bool b => some (if b then 1 else 0)
  | .num n => some n
  | .str s => if s.trim = "" then some 0 else s.trim.toInt?
  | .obj _ => none

mutual

/-- JavaScript strict equality `===`; object identity is approximated
structurally. -/
def jsStrictEq : JsValue → JsValue → Bool
  | .null, .null => true
  | .undefined, .undefined => true
  | .bool a, .bool b => a = b
  | .num a, .num b => a = b
  | .str a, .str b => a = b
  | .obj a, .obj b => jsStrictEqFields a b
  | _, _ => false

/-- Field-list part of `jsStrictEq`. -/
def jsStrictEqFields : List (String × JsValue) → List (String × JsValue) → Bool
  | [], [] => true
  | (k, v) :: r, (k', v') :: r' => k = k' && jsStrictEq v v' && jsStrictEqFields r r'
  | _, _ => false

end

/-- JavaScript loose equality `==` (numeric coercion across kinds;
`null == undefined`). -/
def jsLooseEq (a b : JsValue) : Bool :=
  match a, b with
  | .null, .null => true
  | .null, .undefined => true
  | .undefined, .null => true
  | .undefined, .undefined => true
  | .num x, .num y => x = y
  | .str x, .str y => x = y
  | .bool x, .bool y => x = y
  | .obj x, .obj y => jsStrictEqFields x y
  | x, y =>
      match jsToNumber x, jsToNumber y with
      | some m, some n => m = n
      | _, _ => false

/-- JavaScript relational `<`: lexicographic on two strings, otherwise
numeric with `NaN` comparisons false. -/
def jsLt (a b : JsValue) : Bool :=
  match a, b with
  | .str x, .str y => x < y
  | x, y =>
      match jsToNumber x, jsToNumber y with
      | some m, some n => m < n
      | _, _ => false

/-- JavaScript relational `<=` under the same coercions as `jsLt`. -/
def jsLe (a b : JsValue) : Bool :=
  match a, b with
  | .str x, .str y => x ≤ y
  | x, y =>
      match jsToNumber x, jsToNumber y with
      | some m, some n => m ≤ n
      | _, _ => false

/-- Word character of the regex class `\w` (the patterns in the source
use no unicode flag, so this is ASCII letters, digits and underscore). -/
def wordChar (c : Char) : Bool := c.isAlpha || c.isDigit || c = '_'

/-- Split a character list into its longest `\w*` prefix and the rest. -/
def takeWord (l : List Char) : List Char × List Char :=
  (l.takeWhile wordChar, l.dropWhile wordChar)

/-- Match the regex `\{\{(\w+)\}\}` at the head of the input; on success
return the captured key and the characters after the match. -/
def matchPlaceholder : List Char → Option (String × List Char)
  | '{' :: '{' :: rest =>
      match takeWord rest with
      | ([], _) => none
      | (w, '}' :: '}' :: rest') => some (String.mk w, rest')
      | (_, _) => none
  | _ => none

theorem length_dropWhile_le' (p : Char → Bool) (l : List Char) :
    (l.dropWhile p).length ≤ l.length := by
  induction l with
  | nil => simp [List.dropWhile]
  | cons c cs ih =>
    simp only [List.dropWhile]
    split
    · exact Nat.le_succ_of_le ih
    · simp

theorem takeWord_length_le (l : List Char) : (takeWord l).2.length ≤ l.length := by
  simpa [takeWord] using length_dropWhile_le' wordChar l

theorem takeWord_append (l : List Char) : (takeWord l).1 ++ (takeWord l).2 = l := by
  simp only [takeWord]
  exact List.takeWhile_append_dropWhile wordChar l
theorem matchPlaceholder_consumes {l : List Char} {k : String} {rest : List Char}
    (h : matchPlaceholder l = some (k, rest)) : rest.length < l.length := by
  unfold matchPlaceholder at h
  split at h
  case h_2 => exact absurd h (by simp)
  case h_1 tail =>
    split at h
    · exact absurd h (by simp)
    case h_2 w rest' hne heq =>
      simp only [Option.some.injEq, Prod.mk.injEq] at h
      obtain ⟨-, hr⟩ := h
      have hle : ('}' :: '}' :: rest').length ≤ tail.length := by
        have := takeWord_length_le tail
        rw [heq] at this
        exact this
      rw [← hr]
      simp only [List.length_cons] at hle ⊢
      omega
    · exact absurd h (by simp)

/-- Decomposition of a successful `matchPlaceholder`: the input is the
literal placeholder text followed by the leftover. -/
theorem matchPlaceholder_eq {l : List Char} {k : String} {rest : List Char}
    (h : matchPlaceholder l = some (k, rest)) :
    l = '{' :: '{' :: k.toList ++ '}' :: '}' :: rest := by
  unfold matchPlaceholder at h
  split at h
  case h_2 => exact absurd h (by simp)
  case h_1 tail =>
    split at h
    · exact absurd h (by simp)
    case h_2 w rest' hne heq =>
      simp only [Option.some.injEq, Prod.mk.injEq] at h
      obtain ⟨hk, hr⟩ := h
      have htail : w ++ '}' :: '}' :: rest' = tail := by
        have := takeWord_append tail
        rw [heq] at this
        exact this
      have hkw : k.toList = w := by rw [← hk]; rfl
      refine List.cons_injective.eq_iff.mpr ?_
      refine List.cons_injective.eq_iff.mpr ?_
      rw [hkw, ← hr]
      exact htail.symm
    · exact absurd h (by simp)

/-- Global-replace pass of `HTTPNode.interpolate` over the characters of a
string template: `template.replace(/\{\{(\w+)\}\}/g, (match, key) =>
data[key] || match)`.  A matched placeholder is replaced by the string
coercion of `data[key]` when that value is truthy, and by the matched
text itself (`match`) otherwise; outside matches the scan advances one
character at a time. -/
def interpStrAux (data : List (String × JsValue)) : List Char → List Char
  | [] => []
  | c :: cs =>
      match h : matchPlaceholder (c :: cs) with
      | some (key, rest) =>
          (if truthy (jsIndex data key) then (jsToString (jsIndex data key)).toList
           else '{' :: '{' :: key.toList ++ '}' :: '}' :: []) ++ interpStrAux data rest
      | none => c :: interpStrAux data cs
termination_by l => l.length
decreasing_by
  · exact matchPlaceholder_consumes h
  · simp

mutual

/-- Shallow embedding of `HTTPNode.interpolate(template, data)`.  String
templates get the regex replacement; `typeof template === 'object'`
covers both objects (recurse into every entry) and `null`
(`Object.entries(null)` throws, modelled as `Except.error`); every other
value is returned unchanged. -/
def interpolate (template : JsValue) (data : List (String × JsValue)) :
    Except String JsValue :=
  match template with
  | .str s => .ok (.str (String.mk (interpStrAux data s.toList)))
  | .null => .error "Cannot convert undefined or null to object"
  | .obj fields =>
      match interpolateFields fields data with
      | .ok fs => .ok (.obj fs)
      | .error e => .error e
  | t => .ok t

/-- Entry-by-entry recursion of `interpolate` over an object's fields. -/
def interpolateFields (fields : List (String × JsValue))
    (data : List (String × JsValue)) : Except String (List (String × JsValue)) :=
  match fields with
  | [] => .ok []
  | (k, v) :: rest =>
      match interpolate v data with
      | .error e => .error e
      | .ok v' =>
          match interpolateFields rest data with
          | .error e => .error e
          | .ok rest' => .ok ((k, v') :: rest')

end

/-- Result shape of `DatabaseNode.interpolateQuery`: the rewritten SQL
text and the collected parameter values. -/
structure QuerySpec where
  text : String
  values : List JsValue

/-- Scanner of the string case of `DatabaseNode.interpolateQuery`:
`text.replace(/\:(\w+)/g, ...)` with a running `paramIndex`.  A matched
`:key` becomes `$i` (and pushes `data[key]`) when `data` has the key;
otherwise the matched text is kept and the index does not advance. -/
def interpQueryAux (data : List (String × JsValue)) :
    List Char → Nat → List Char × List JsValue
  | [], _ => ([], [])
  | c :: cs, i =>
      if c = ':' then
        match hw : takeWord cs with
        | ([], _) =>
            let r := interpQueryAux data cs i
            (c :: r.1, r.2)
        | (w, rest) =>
            if hasOwnProperty data (String.mk w) then
              let r := interpQueryAux data rest (i + 1)
              (('$' :: (toString i).toList) ++ r.1,
               jsIndex data (String.mk w) :: r.2)
            else
              let r := interpQueryAux data rest i
              ((c :: w) ++ r.1, r.2)
      else
        let r := interpQueryAux data cs i
        (c :: r.1, r.2)
termination_by l _ => l.length
decreasing_by
  · simp
  · have := takeWord_length_le cs
    rw [hw] at this
    simp only [List.length_cons]
    simp at this
    omega
  · have := takeWord_length_le cs
    rw [hw] at this
    simp only [List.length_cons]
    simp at this
    omega
  · simp

/-- Shallow embedding of `DatabaseNode.interpolateQuery(query, data)`.
String queries get the `:(\w+)` rewriting with `paramIndex` starting at
1; otherwise `{ text: query.text || query, values: query.values || [] }`
is returned, with the JavaScript `||` falling back on falsy field
values.  Non-string `text` is kept as a coerced string. -/
def interpolateQuery (query : JsValue) (data : List (String × JsValue)) : QuerySpec :=
  match query with
  | .str s =>
      let r := interpQueryAux data s.toList 1
      { text := String.mk r.1, values := r.2 }
  | q =>
      let textV := match q with
        | .obj fields => if truthy (jsIndex fields "text") then jsIndex fields "text" else q
        | _ => q
      let valuesV := match q with
        | .obj fields => jsIndex fields "values"
        | _ => .undefined
      { text := jsToString textV,
        values := match valuesV with
          | .obj vs => vs.map (fun kv => kv.2)
          | _ => [] }

/-- Test for the JavaScript `undefined`, deciding whether a destructuring
default applies. -/
def isUndefined : JsValue → Bool
  | .undefined => true
  | _ => false

/-- Optional-chaining property step `acc?.[part]`: `undefined` on
`null`/`undefined` receivers and on primitives without such a property. -/
def jsOptIndex (v : JsValue) (part : String) : JsValue :=
  match v with
  | .obj fields => jsIndex fields part
  | _ => .undefined

/-- Shallow embedding of `getValueByPath(obj, path)` shared by
`ConditionalNode` and `TransformerNode`:
`path.split('.').reduce((acc, part) => acc?.[part], obj)`. -/
def getValueByPath (v : JsValue) (path : String) : JsValue :=
  (path.splitOn ".").foldl jsOptIndex v

/-- Fields contributed by an object spread `{...v}`: an object's entries,
a string's indexed characters, nothing for the other primitives. -/
def jsSpreadFields : JsValue → List (String × JsValue)
  | .obj fields => fields
  | .str s => (s.toList.enum.map (fun ic => (toString ic.1, .str (String.mk [ic.2]))))
  | _ => []

/-- The object expression `{ ...a, ...b }` used to build the interpolation
data of the nodes (`{ ...input, ...context }`). -/
def jsMergeSpread (a b : JsValue) : List (String × JsValue) :=
  (jsSpreadFields b).foldl (fun acc kv => mapSet acc kv.1 kv.2) (jsSpreadFields a)

/-- JavaScript `Object.entries(v)`: throws on `null`/`undefined`, entries
of an object, indexed characters of a string, empty for other primitives. -/
def jsEntries : JsValue → Except String (List (String × JsValue))
  | .null => .error "Cannot convert undefined or null to object"
  | .undefined => .error "Cannot convert undefined or null to object"
  | .obj fields => .ok fields
  | .str s => .ok (s.toList.enum.map (fun ic => (toString ic.1, .str (String.mk [ic.2]))))
  | _ => .ok []

/-- Property read `v.key` on an arbitrary value, as used by the config
destructurings: throws on `null`/`undefined`, `undefined` on a primitive. -/
def jsGetField (v : JsValue) (key : String) : Except String JsValue :=
  match v with
  | .null => .error ("Cannot read properties of null (reading '" ++ key ++ "')")
  | .undefined => .error ("Cannot read properties of undefined (reading '" ++ key ++ "')")
  | .obj fields => .ok (jsIndex fields key)
  | _ => .ok .undefined

/-- Shallow embedding of `BaseNode.handleError(error)`: the ordinary
result value `{ success: false, error: message, stack: undefined }`
(the `stack` field is `undefined` outside development). -/
def handleError (message : String) : JsValue :=
  .obj [("success", .bool false), ("error", .str message), ("stack", .undefined)]

/-- Response delivered by the `axios` call of `HTTPNode.execute`; with
`validateStatus: () => true` every received HTTP status resolves, so a
rejection (modelled as `Except.error` of the sending function) is a
transport-level failure only. -/
structure HttpResponse where
  status : Int
  headers : JsValue
  data : JsValue

/-- Request assembled by `HTTPNode.execute` and passed to `axios`. -/
structure HttpRequest where
  url : JsValue
  method : JsValue
  headers : JsValue
  params : JsValue
  data : JsValue

/-- Body of the `try` block of `HTTPNode.execute(input, context)`:
destructure the config, interpolate url/headers/params/data against
`{ ...input, ...context }`, send, and build the result object whose
`success` field is `response.status < 400`. -/
def httpTry (send : HttpRequest → Except String HttpResponse)
    (config input context : JsValue) (now : String) : Except String JsValue := do
  let url ← jsGetField config "url"
  let methodRaw ← jsGetField config "method"
  let headersRaw ← jsGetField config "headers"
  let paramsRaw ← jsGetField config "params"
  let dataRaw ← jsGetField config "data"
  let method := if isUndefined methodRaw then .str "GET" else methodRaw
  let headers := if isUndefined headersRaw then .obj [] else headersRaw
  let params := if isUndefined paramsRaw then .obj [] else paramsRaw
  let merged := jsMergeSpread input context
  let processedUrl ← interpolate url merged
  let processedHeaders ← interpolate headers merged
  let processedParams ← interpolate params merged
  let processedData ← if truthy dataRaw then interpolate dataRaw merged else pure input
  let response ← send
    { url := processedUrl, method := method, headers := processedHeaders,
      params := processedParams, data := processedData }
  pure (.obj
    [("success", .bool (decide (response.status < 400))),
     ("status", .num response.status),
     ("headers", response.headers),
     ("data", response.data),
     ("timestamp", .str now)])

/-- Shallow embedding of `HTTPNode.execute`: the `try` body with every
thrown error caught and converted by `handleError`. -/
def httpExecute (send : HttpRequest → Except String HttpResponse)
    (config input context : JsValue) (now : String) : JsValue :=
  match httpTry send config input context now with
  | .ok r => r
  | .error e => handleError e

/-- Result returned by the `pg` pool query in `DatabaseNode.execute`;
the `fields` entry already carries the mapped column names. -/
structure DbResult where
  rows : JsValue
  rowCount : Int
  fields : JsValue

/-- Body of the `try` block of `DatabaseNode.execute(input, context)`:
read the configured query, interpolate `:name` parameters against
`{ ...input, ...context }`, run it, and build the all-success result. -/
def dbTry (poolQuery : QuerySpec → Except String DbResult)
    (config input context : JsValue) (now : String) : Except String JsValue := do
  let queryRaw ← jsGetField config "query"
  let query := interpolateQuery queryRaw (jsMergeSpread input context)
  let result ← poolQuery query
  pure (.obj
    [("success", .bool true),
     ("rows", result.rows),
     ("rowCount", .num result.rowCount),
     ("fields", result.fields),
     ("timestamp", .str now)])

/-- Shallow embedding of `DatabaseNode.execute`: the `try` body with
every thrown error caught and converted by `handleError`. -/
def databaseExecute (poolQuery : QuerySpec → Except String DbResult)
    (config input context : JsValue) (now : String) : JsValue :=
  match dbTry poolQuery config input context now with
  | .ok r => r
  | .error e => handleError e

/-- Body of the `try` block of `ConditionalNode.execute(input, context)`.
The `javascript` operator and the regex test are effect parameters
(`vm2` sandbox, `RegExp`); all other operators are evaluated with the
JavaScript coercions modelled above.  A non-matching operator hits the
`default` arm and throws. -/
def conditionalTry
    (vmRun : JsValue → JsValue → JsValue → Except String JsValue)
    (regexTest : JsValue → JsValue → Except String Bool)
    (config input context : JsValue) (now : String) : Except String JsValue := do
  let condition ← jsGetField config "condition"
  let operatorRaw ← jsGetField config "operator"
  let value ← jsGetField config "value"
  let path ← jsGetField config "path"
  let operator := if isUndefined operatorRaw then .str "equals" else operatorRaw
  let testValue ←
    if truthy path then
      match path with
      | .str p => pure (getValueByPath input p)
      | _ => .error "path.split is not a function"
    else pure input
  let result : JsValue ←
    match operator with
    | .str "equals" => pure (.bool (jsLooseEq testValue value))
    | .str "strict_equals" => pure (.bool (jsStrictEq testValue value))
    | .str "not_equals" => pure (.bool (! jsLooseEq testValue value))
    | .str "greater" => pure (.bool (jsLt value testValue))
    | .str "less" => pure (.bool (jsLt testValue value))
    | .str "greater_equal" => pure (.bool (jsLe value testValue))
    | .str "less_equal" => pure (.bool (jsLe testValue value))
    | .str "contains" =>
        pure (.bool (match testValue with
          | .str s => decide ((jsToString value).toList <:+: s.toList)
          | _ => false))
    | .str "regex" => do
        let b ← regexTest value testValue
        pure (.bool b)
    | .str "exists" =>
        pure (.bool (! isUndefined testValue && ! jsStrictEq testValue .null))
    | .str "javascript" => vmRun condition input context
    | op => .error ("Unknown operator: " ++ jsToString op)
  pure (.obj
    [("success", .bool true),
     ("condition", result),
     ("branch", .str (if truthy result then "true" else "false")),
     ("tested", testValue),
     ("timestamp", .str now)])

/-- Shallow embedding of `ConditionalNode.execute`: the `try` body with
every thrown error caught and converted by `handleError`. -/
def conditionalExecute
    (vmRun : JsValue → JsValue → JsValue → Except String JsValue)
    (regexTest : JsValue → JsValue → Except String Bool)
    (config input context : JsValue) (now : String) : JsValue :=
  match conditionalTry vmRun regexTest config input context now with
  | .ok r => r
  | .error e => handleError e

/-- Key of a template string that is exactly one `{{key}}` placeholder,
if any.  In `TransformerNode.applyTemplate` the serialized-JSON regex
`"\{\{(\w+)\}\}"` is anchored on both quotes of a JSON string literal,
so only whole-string placeholders are replaced. -/
def wholePlaceholderKey (s : String) : Option String :=
  match matchPlaceholder s.toList with
  | some (key, []) => some key
  | _ => none

mutual

/-- Structural model of `TransformerNode.applyTemplate(template, data)`:
the source serializes the template with `JSON.stringify`, replaces every
quoted `"{{key}}"` literal by `JSON.stringify(data[key])`, and parses the
result.  Structurally that substitutes `data[key]` for every string leaf
that is exactly a placeholder; an absent key serializes as `undefined`,
which is invalid JSON, so `JSON.parse` throws. -/
def applyTemplate (template : JsValue) (data : List (String × JsValue)) :
    Except String JsValue :=
  match template with
  | .str s =>
      match wholePlaceholderKey s with
      | some key =>
          match jsIndex data key with
          | .undefined => .error "Unexpected token u in JSON"
          | v => .ok v
      | none => .ok (.str s)
  | .obj fields =>
      match applyTemplateFields fields data with
      | .ok fs => .ok (.obj fs)
      | .error e => .error e
  | v => .ok v

/-- Entry-by-entry recursion of `applyTemplate` over an object's fields. -/
def applyTemplateFields (fields : List (String × JsValue))
    (data : List (String × JsValue)) : Except String (List (String × JsValue)) :=
  match fields with
  | [] => .ok []
  | (k, v) :: rest =>
      match applyTemplate v data with
      | .error e => .error e
      | .ok v' =>
          match applyTemplateFields rest data with
          | .error e => .error e
          | .ok rest' => .ok ((k, v') :: rest')

end

/-- Shallow embedding of `TransformerNode.applyFieldMapping(mapping, input)`:
for each mapping entry, a string source is a path lookup, `type: 'static'`
copies the configured value, `type: 'expression'` runs the sandboxed
expression (effect parameter), and anything else assigns nothing. -/
def applyFieldMapping
    (vmExpr : JsValue → JsValue → JsValue → Except String JsValue)
    (mapping input : JsValue) : Except String JsValue := do
  let entries ← jsEntries mapping
  let result ← entries.foldlM
    (fun (acc : List (String × JsValue)) kv => do
      match kv.2 with
      | .str p => pure (mapSet acc kv.1 (getValueByPath input p))
      | sourceConfig => do
          let ty ← jsGetField sourceConfig "type"
          if jsStrictEq ty (.str "static") then do
            let v ← jsGetField sourceConfig "value"
            pure (mapSet acc kv.1 v)
          else if jsStrictEq ty (.str "expression") then do
            let fieldV ← jsGetField sourceConfig "field"
            let fieldPath ←
              match fieldV with
              | .str p => pure p
              | _ => Except.error "path.split is not a function"
            let exprV ← jsGetField sourceConfig "expression"
            let v ← vmExpr exprV input (getValueByPath input fieldPath)
            pure (mapSet acc kv.1 v)
          else pure acc) []
  pure (.obj result)

/-- Body of the `try` block of `TransformerNode.execute(input, context)`:
template, code, or field-mapping transformation, then the all-success
result object (`original` is `undefined` unless `includeOriginal`). -/
def transformerTry
    (vmCode : JsValue → JsValue → JsValue → Except String JsValue)
    (vmExpr : JsValue → JsValue → JsValue → Except String JsValue)
    (config input context : JsValue) (now : String) : Except String JsValue := do
  let templateV ← jsGetField config "template"
  let codeV ← jsGetField config "code"
  let transformV ← jsGetField config "transform"
  let includeOriginal ← jsGetField config "includeOriginal"
  let result ←
    if truthy templateV then
      applyTemplate templateV (jsMergeSpread input context)
    else if truthy codeV then
      vmCode codeV input context
    else if truthy transformV then
      applyFieldMapping vmExpr transformV input
    else pure .undefined
  pure (.obj
    [("success", .bool true),
     ("data", result),
     ("original", if truthy includeOriginal then input else .undefined),
     ("timestamp", .str now)])

/-- Shallow embedding of `TransformerNode.execute`: the `try` body with
every thrown error caught and converted by `handleError`. -/
def transformerExecute
    (vmCode : JsValue → JsValue → JsValue → Except String JsValue)
    (vmExpr : JsValue → JsValue → JsValue → Except String JsValue)
    (config input context : JsValue) (now : String) : JsValue :=
  match transformerTry vmCode vmExpr config input context now with
  | .ok r => r
  | .error e => handleError e

/-- A node of a workflow definition (`{ id, type, config }`); editor-only
fields are part of the opaque `config`. -/
structure NodeSpec where
  id : String
  type : String
  config : JsValue

/-- A directed edge of a workflow (`{ source, target }`). -/
structure Edge where
  source : String
  target : String

/-- Argument of `WorkflowEngine.createWorkflow` (`definition`). -/
structure WorkflowDef where
  name : String
  nodes : List NodeSpec
  edges : List Edge

/-- A stored workflow as built by `createWorkflow`. -/
structure Workflow where
  id : String
  name : String
  nodes : List NodeSpec
  edges : List Edge
  status : String

/-- Execution record of the engine.  `endTimeSet` models whether
`execution.endTime` has been assigned; `error` is the message stored by
the failure path of `executeNode`. -/
structure Execution where
  id : String
  workflowId : String
  status : String
  data : JsValue
  nodeResults : List (String × JsValue)
  currentNodes : List String
  error : Option String
  endTimeSet : Bool

/-- A job placed on the bull queue by `queueNode`, including its retry
options (`attempts: 3`, exponential backoff with `delay: 2000`). -/
structure Job where
  workflowId : String
  executionId : String
  nodeId : String
  input : JsValue
  attempts : Nat
  backoffDelay : Nat

/-- Records written to the redis store; serialization by `JSON.stringify`
is abstracted, keeping the record itself under the string key. -/
inductive StoredValue where
  | wf (w : Workflow)
  | exec (e : Execution)

/-- Events emitted by the engine itself (`this.emit(...)`); the
`node:completed` / `node:failed` events are emitted by the queue
handlers outside the functions modelled here. -/
inductive EngineEvent where
  | workflowCompleted (executionId : String) (results : List (String × JsValue))

/-- State of a `WorkflowEngine` instance: the `workflows`, `executions`
and `nodes` maps, the redis store, the bull queue contents, and the
events emitted so far.  Node classes are identified by an opaque name. -/
structure EngineState where
  workflows : List (String × Workflow)
  executions : List (String × Execution)
  nodes : List (String × String)
  redisStore : List (String × StoredValue)
  queue : List Job
  events : List EngineEvent

/-- Shallow embedding of `registerNode(type, NodeClass)`: an unconditional
`Map.set` on the registry. -/
def registerNode (s : EngineState) (type NodeClass : String) : EngineState :=
  { s with nodes := mapSet s.nodes type NodeClass }

/-- Shallow embedding of `createWorkflow(definition)`: build the workflow
record, store it in the map and in redis, and return it.  The generated
uuid is threaded as `workflowId`. -/
def createWorkflow (s : EngineState) (workflowId : String) (definition : WorkflowDef) :
    EngineState × Workflow :=
  let workflow : Workflow :=
    { id := workflowId, name := definition.name, nodes := definition.nodes,
      edges := definition.edges, status := "active" }
  ({ s with
      workflows := mapSet s.workflows workflowId workflow,
      redisStore := mapSet s.redisStore ("workflow:" ++ workflowId) (.wf workflow) },
   workflow)

/-- Shallow embedding of `queueNode(workflowId, executionId, nodeId, input)`:
`queue.add` with `attempts: 3` and exponential backoff `delay: 2000`. -/
def queueNode (s : EngineState) (workflowId executionId nodeId : String)
    (input : JsValue) : EngineState :=
  { s with queue := s.queue ++
      [{ workflowId := workflowId, executionId := executionId, nodeId := nodeId,
         input := input, attempts := 3, backoffDelay := 2000 }] }

/-- Shallow embedding of `executeWorkflow(workflowId, initialData)`.  The
generated uuid is threaded as `executionId`.  A missing workflow id
throws before any state is touched; otherwise the running execution is
created, stored, and every start node (no incoming edge) is queued with
the initial data, in the order of the `nodes` array. -/
def executeWorkflow (s : EngineState) (executionId workflowId : String)
    (initialData : JsValue) : EngineState × Except String (String × String) :=
  match mapGet s.workflows workflowId with
  | none => (s, .error ("Workflow " ++ workflowId ++ " not found"))
  | some workflow =>
      let execution : Execution :=
        { id := executionId, workflowId := workflowId, status := "running",
          data := initialData, nodeResults := [], currentNodes := [],
          error := none, endTimeSet := false }
      let s1 := { s with
        executions := mapSet s.executions executionId execution,
        redisStore := mapSet s.redisStore ("execution:" ++ executionId) (.exec execution) }
      let startNodes := workflow.nodes.filter
        (fun node => ! workflow.edges.any (fun edge => edge.target = node.id))
      let s2 := startNodes.foldl
        (fun acc node => queueNode acc workflowId executionId node.id initialData) s1
      (s2, .ok (executionId, "started"))

/-- The merged dependency input of `executeNode`:
`dependencies.reduce((acc, depId) => ({ ...acc, [depId]: results[depId] }), {})`. -/
def buildMergedInput (dependencies : List String)
    (results : List (String × JsValue)) : List (String × JsValue) :=
  dependencies.foldl (fun acc depId => mapSet acc depId (jsIndex results depId)) []

/-- One iteration of the successor-queueing loop of `executeNode` for an
outgoing edge: look up the target node, collect its dependencies (the
sources of every edge into it), and queue it with the merged input when
they are all in `nodeResults`. -/
def scheduleEdge (workflow : Workflow) (results : List (String × JsValue))
    (workflowId executionId : String) (acc : EngineState) (edge : Edge) : EngineState :=
  match workflow.nodes.find? (fun n => n.id = edge.target) with
  | none => acc
  | some nextNode =>
      let dependencies := (workflow.edges.filter
        (fun e => e.target = nextNode.id)).map (fun e => e.source)
      if dependencies.all (fun depId => hasOwnProperty results depId) then
        queueNode acc workflowId executionId nextNode.id
          (.obj (buildMergedInput dependencies results))
      else acc

/-- The behaviour of a node class: `new NodeClass(nodeConfig.config)`
followed by `await node.execute(input, execution.nodeResults)`, with a
thrown error modelled as `Except.error`. -/
def NodeRunner : Type :=
  String → JsValue → JsValue → List (String × JsValue) → Except String JsValue

/-- Shallow embedding of `executeNode(workflowId, executionId, nodeId,
input)`.  A missing node or unregistered type throws before the `try`
block; on success the result is recorded, ready successors are queued in
the order of the `edges` array, and if every node of the workflow has a
result the execution is completed (status, end time, `workflow:completed`
event); on a thrown error the execution is marked failed with the error
message and the error is rethrown (so the queue retries the job).
Dereferencing a missing workflow or execution record throws a TypeError. -/
def executeNode (run : NodeRunner) (s : EngineState)
    (workflowId executionId nodeId : String) (input : JsValue) :
    EngineState × Except String JsValue :=
  match mapGet s.workflows workflowId, mapGet s.executions executionId with
  | some workflow, some execution =>
      match workflow.nodes.find? (fun n => n.id = nodeId) with
      | none => (s, .error ("Node " ++ nodeId ++ " not found in workflow"))
      | some nodeConfig =>
          match mapGet s.nodes nodeConfig.type with
          | none => (s, .error ("Node type " ++ nodeConfig.type ++ " not registered"))
          | some _ =>
              match run nodeConfig.type nodeConfig.config input execution.nodeResults with
              | .ok result =>
                  let execution1 := { execution with
                    nodeResults := mapSet execution.nodeResults nodeId result }
                  let s1 := { s with
                    executions := mapSet s.executions executionId execution1,
                    redisStore := mapSet s.redisStore ("execution:" ++ executionId)
                      (.exec execution1) }
                  let nextEdges := workflow.edges.filter (fun edge => edge.source = nodeId)
                  let s2 := nextEdges.foldl
                    (scheduleEdge workflow execution1.nodeResults workflowId executionId) s1
                  let allNodesExecuted := workflow.nodes.all
                    (fun node => hasOwnProperty execution1.nodeResults node.id)
                  if allNodesExecuted then
                    let execution2 := { execution1 with
                      status := "completed", endTimeSet := true }
                    ({ s2 with
                        executions := mapSet s2.executions executionId execution2,
                        redisStore := mapSet s2.redisStore ("execution:" ++ executionId)
                          (.exec execution2),
                        events := s2.events ++
                          [.workflowCompleted executionId execution2.nodeResults] },
                     .ok result)
                  else (s2, .ok result)
              | .error message =>
                  let execution1 := { execution with
                    status := "failed", error := some message }
                  ({ s with
                      executions := mapSet s.executions executionId execution1,
                      redisStore := mapSet s.redisStore ("execution:" ++ executionId)
                        (.exec execution1) },
                   .error message)
  | _, _ => (s, .error "TypeError")

theorem mapGet_mapSet_self {α : Type} (m : List (String × α)) (k : String) (v : α) :
    mapGet (mapSet m k v) k = some v := by
  induction m with
  | nil => simp [mapGet, mapSet]
  | cons kv rest ih =>
    obtain ⟨k', v'⟩ := kv
    by_cases h : k' = k
    · simp [mapGet, mapSet, h]
    · simp [mapGet, mapSet, h, ih]

theorem mapGet_mapSet_ne {α : Type} (m : List (String × α)) (k k' : String) (v : α)
    (h : k ≠ k') : mapGet (mapSet m k v) k' = mapGet m k' := by
  induction m with
  | nil => simp [mapGet, mapSet, h]
  | cons kv rest ih =>
    obtain ⟨k₀, v₀⟩ := kv
    by_cases h₀ : k₀ = k
    · subst h₀
      simp [mapGet, mapSet, h]
    · simp only [mapSet, if_neg h₀, mapGet]
      by_cases h₁ : k₀ = k'
      · simp [h₁]
      · simp [h₁, ih]

theorem mapGet_mem {α : Type} {m : List (String × α)} {k : String} {v : α}
    (h : mapGet m k = some v) : (k, v) ∈ m := by
  induction m with
  | nil => simp [mapGet] at h
  | cons kv rest ih =>
    obtain ⟨k', v'⟩ := kv
    simp only [mapGet] at h
    by_cases hk : k' = k
    · subst hk
      simp at h
      subst h
      exact List.mem_cons_self _ _
    · rw [if_neg hk] at h
      exact List.mem_cons_of_mem _ (ih h)

theorem hasOwnProperty_mapSet (m : List (String × JsValue)) (k k' : String) (v : JsValue) :
    hasOwnProperty (mapSet m k v) k' = (k = k' || hasOwnProperty m k') := by
  by_cases h : k = k'
  · subst h
    simp [hasOwnProperty, mapGet_mapSet_self]
  · simp [hasOwnProperty, mapGet_mapSet_ne m k k' v h, h]

theorem jsIndex_mapSet_self (m : List (String × JsValue)) (k : String) (v : JsValue) :
    jsIndex (mapSet m k v) k = v := by
  simp [jsIndex, mapGet_mapSet_self]

theorem jsIndex_mapSet_ne (m : List (String × JsValue)) (k k' : String) (v : JsValue)
    (h : k ≠ k') : jsIndex (mapSet m k v) k' = jsIndex m k' := by
  simp [jsIndex, mapGet_mapSet_ne m k k' v h]

/-- The job a start node of `executeWorkflow` is queued as. -/
def startJob (workflowId executionId : String) (input : JsValue) (n : NodeSpec) : Job :=
  { workflowId := workflowId, executionId := executionId, nodeId := n.id,
    input := input, attempts := 3, backoffDelay := 2000 }

theorem foldl_queueNode (workflowId executionId : String) (input : JsValue)
    (nodes : List NodeSpec) (s : EngineState) :
    nodes.foldl (fun acc node => queueNode acc workflowId executionId node.id input) s =
      { s with queue := s.queue ++ nodes.map (startJob workflowId executionId input) } := by
  induction nodes generalizing s with
  | nil => simp
  | cons n rest ih =>
    simp only [List.foldl_cons, List.map_cons]
    rw [ih]
    simp [queueNode, startJob]

/-- The job (if any) that one iteration of the successor loop of
`executeNode` queues for an outgoing edge. -/
def successorJob (workflow : Workflow) (results : List (String × JsValue))
    (workflowId executionId : String) (edge : Edge) : Option Job :=
  match workflow.nodes.find? (fun n => n.id = edge.target) with
  | none => none
  | some nextNode =>
      let dependencies := (workflow.edges.filter
        (fun e => e.target = nextNode.id)).map (fun e => e.source)
      if dependencies.all (fun depId => hasOwnProperty results depId) then
        some { workflowId := workflowId, executionId := executionId,
               nodeId := nextNode.id,
               input := .obj (buildMergedInput dependencies results),
               attempts := 3, backoffDelay := 2000 }
      else none

theorem scheduleEdge_eq (workflow : Workflow) (results : List (String × JsValue))
    (workflowId executionId : String) (acc : EngineState) (edge : Edge) :
    scheduleEdge workflow results workflowId executionId acc edge =
      match successorJob workflow results workflowId executionId edge with
      | some j => { acc with queue := acc.queue ++ [j] }
      | none => acc := by
  unfold scheduleEdge successorJob queueNode
  cases workflow.nodes.find? (fun n => n.id = edge.target) with
  | none => simp
  | some nextNode =>
    simp only
    split
    · simp
    · simp

theorem foldl_scheduleEdge (workflow : Workflow) (results : List (String × JsValue))
    (workflowId executionId : String) (edges : List Edge) (acc : EngineState) :
    edges.foldl (scheduleEdge workflow results workflowId executionId) acc =
      { acc with queue := acc.queue ++
          edges.filterMap (successorJob workflow results workflowId executionId) } := by
  induction edges generalizing acc with
  | nil => simp
  | cons e rest ih =>
    simp only [List.foldl_cons, List.filterMap_cons]
    rw [scheduleEdge_eq]
    cases hj : successorJob workflow results workflowId executionId e with
    | none => rw [ih]
    | some j =>
      simp only
      rw [ih]
      simp

/-- The state-and-result value of the success path of `executeNode`,
with the successor loop expressed through `successorJob`. -/
def executeNodeOk (s : EngineState) (workflow : Workflow) (execution : Execution)
    (workflowId executionId nodeId : String) (result : JsValue) :
    EngineState × Except String JsValue :=
  let execution1 := { execution with
    nodeResults := mapSet execution.nodeResults nodeId result }
  let s1 := { s with
    executions := mapSet s.executions executionId execution1,
    redisStore := mapSet s.redisStore ("execution:" ++ executionId) (.exec execution1) }
  let jobs := (workflow.edges.filter (fun edge => edge.source = nodeId)).filterMap
    (successorJob workflow execution1.nodeResults workflowId executionId)
  let s2 := { s1 with queue := s1.queue ++ jobs }
  if workflow.nodes.all (fun node => hasOwnProperty execution1.nodeResults node.id) then
    let execution2 := { execution1 with status := "completed", endTimeSet := true }
    ({ s2 with
        executions := mapSet s2.executions executionId execution2,
        redisStore := mapSet s2.redisStore ("execution:" ++ executionId)
          (.exec execution2),
        events := s2.events ++
          [.workflowCompleted executionId execution2.nodeResults] },
     .ok result)
  else (s2, .ok result)

theorem executeNode_ok_eq (run : NodeRunner) (s : EngineState)
    (workflowId executionId nodeId : String) (input : JsValue)
    (workflow : Workflow) (execution : Execution) (nodeConfig : NodeSpec)
    (cls : String) (result : JsValue)
    (hwf : mapGet s.workflows workflowId = some workflow)
    (hex : mapGet s.executions executionId = some execution)
    (hnode : workflow.nodes.find? (fun n => n.id = nodeId) = some nodeConfig)
    (hreg : mapGet s.nodes nodeConfig.type = some cls)
    (hrun : run nodeConfig.type nodeConfig.config input execution.nodeResults
      = .ok result) :
    executeNode run s workflowId executionId nodeId input =
      executeNodeOk s workflow execution workflowId executionId nodeId result := by
  unfold executeNode executeNodeOk
  rw [hwf, hex]
  dsimp only
  rw [hnode]
  dsimp only
  rw [hreg]
  dsimp only
  rw [hrun]
  dsimp only
  simp only [foldl_scheduleEdge]

theorem executeNode_error_eq (run : NodeRunner) (s : EngineState)
    (workflowId executionId nodeId : String) (input : JsValue)
    (workflow : Workflow) (execution : Execution) (nodeConfig : NodeSpec)
    (cls : String) (message : String)
    (hwf : mapGet s.workflows workflowId = some workflow)
    (hex : mapGet s.executions executionId = some execution)
    (hnode : workflow.nodes.find? (fun n => n.id = nodeId) = some nodeConfig)
    (hreg : mapGet s.nodes nodeConfig.type = some cls)
    (hrun : run nodeConfig.type nodeConfig.config input execution.nodeResults
      = .error message) :
    executeNode run s workflowId executionId nodeId input =
      ({ s with
          executions := mapSet s.executions executionId
            { execution with status := "failed", error := some message },
          redisStore := mapSet s.redisStore ("execution:" ++ executionId)
            (.exec { execution with status := "failed", error := some message }) },
       .error message) := by
  unfold executeNode
  rw [hwf, hex]
  dsimp only
  rw [hnode]
  dsimp only
  rw [hreg]
  dsimp only
  rw [hrun]

theorem hasOwn_foldl_iff (res : List (String × JsValue)) (deps : List String)
    (acc : List (String × JsValue)) (p : String) :
    hasOwnProperty (deps.foldl (fun a d => mapSet a d (jsIndex res d)) acc) p = true ↔
      (p ∈ deps ∨ hasOwnProperty acc p = true) := by
  induction deps generalizing acc with
  | nil => simp
  | cons d ds ih =>
    simp only [List.foldl_cons, List.mem_cons]
    rw [ih]
    rw [hasOwnProperty_mapSet]
    constructor
    · rintro (h | h)
      · exact Or.inl (Or.inr h)
      · rcases Bool.or_eq_true_iff.mp h with h' | h'
        · exact Or.inl (Or.inl (of_decide_eq_true h').symm)
        · exact Or.inr h'
    · rintro ((h | h) | h)
      · subst h
        exact Or.inr (Bool.or_eq_true_iff.mpr (Or.inl (decide_eq_true rfl)))
      · exact Or.inl h
      · exact Or.inr (Bool.or_eq_true_iff.mpr (Or.inr h))

theorem hasOwn_buildMergedInput_iff (deps : List String)
    (res : List (String × JsValue)) (p : String) :
    hasOwnProperty (buildMergedInput deps res) p = true ↔ p ∈ deps := by
  unfold buildMergedInput
  rw [hasOwn_foldl_iff]
  simp [hasOwnProperty, mapGet]

theorem jsIndex_foldl_notmem (res : List (String × JsValue)) (deps : List String)
    (acc : List (String × JsValue)) (p : String) (hp : p ∉ deps) :
    jsIndex (deps.foldl (fun a d => mapSet a d (jsIndex res d)) acc) p =
      jsIndex acc p := by
  induction deps generalizing acc with
  | nil => simp
  | cons d ds ih =>
    simp only [List.mem_cons, not_or] at hp
    simp only [List.foldl_cons]
    rw [ih _ hp.2, jsIndex_mapSet_ne _ _ _ _ (fun h => hp.1 h.symm)]

theorem jsIndex_foldl_mem (res : List (String × JsValue)) (deps : List String)
    (acc : List (String × JsValue)) (p : String) (hp : p ∈ deps) :
    jsIndex (deps.foldl (fun a d => mapSet a d (jsIndex res d)) acc) p =
      jsIndex res p := by
  induction deps generalizing acc with
  | nil => simp at hp
  | cons d ds ih =>
    simp only [List.foldl_cons]
    by_cases hds : p ∈ ds
    · exact ih _ hds
    · have hd : p = d := by
        rcases List.mem_cons.mp hp with h | h
        · exact h
        · exact absurd h hds
      subst hd
      rw [jsIndex_foldl_notmem res ds _ p hds, jsIndex_mapSet_self]

theorem jsIndex_buildMergedInput (deps : List String)
    (res : List (String × JsValue)) (p : String) (hp : p ∈ deps) :
    jsIndex (buildMergedInput deps res) p = jsIndex res p :=
  jsIndex_foldl_mem res deps [] p hp

theorem successorJob_some {workflow : Workflow} {results : List (String × JsValue)}
    {workflowId executionId : String} {edge : Edge} {j : Job}
    (h : successorJob workflow results workflowId executionId edge = some j) :
    j.workflowId = workflowId ∧ j.executionId = executionId ∧
    j.nodeId = edge.target ∧ j.attempts = 3 ∧ j.backoffDelay = 2000 ∧
    ((workflow.edges.filter (fun e => e.target = edge.target)).map
        (fun e => e.source)).all (fun depId => hasOwnProperty results depId) = true ∧
    j.input = .obj (buildMergedInput
      ((workflow.edges.filter (fun e => e.target = edge.target)).map
        (fun e => e.source)) results) := by
  unfold successorJob at h
  cases hfind : workflow.nodes.find? (fun n => n.id = edge.target) with
  | none => rw [hfind] at h; exact absurd h (by simp)
  | some nextNode =>
    rw [hfind] at h
    have hid : nextNode.id = edge.target := by
      have := List.find?_some hfind
      exact of_decide_eq_true this
    simp only [hid] at h
    split at h
    · rename_i hall
      simp only [Option.some.injEq] at h
      subst h
      exact ⟨rfl, rfl, rfl, rfl, rfl, hall, rfl⟩
    · exact absurd h (by simp)

/-- An engine instance as constructed with empty maps, store and queue. -/
def emptyEngine : EngineState :=
  { workflows := [], executions := [], nodes := [], redisStore := [],
    queue := [], events := [] }

/-- Bounded reachability along edges: `reachesIn edges fuel a b` holds when
some non-empty edge path of length at most `fuel` leads from `a` to `b`. -/
def reachesIn (edges : List Edge) : Nat → String → String → Bool
  | 0, _, _ => false
  | fuel + 1, a, b =>
      edges.any (fun e => e.source = a && (e.target = b || reachesIn edges fuel e.target b))

/-- Modelled from the spec: "a graph containing a cycle" (the validation
the spec ascribes to `create_workflow` but that is absent from the
source).  A cycle is a non-empty path from some edge source back to
itself; `edges.length + 1` steps of fuel suffice. -/
def specHasCycle (edges : List Edge) : Bool :=
  edges.any (fun e => reachesIn edges (edges.length + 1) e.source e.source)

/-- A workflow definition whose two edges form the cycle a → b → a. -/
def cyclicDef : WorkflowDef :=
  { name := "cyclic",
    nodes := [⟨"a", "t", .null⟩, ⟨"b", "t", .null⟩],
    edges := [⟨"a", "b"⟩, ⟨"b", "a"⟩] }

/-- C2 counterexample: `createWorkflow` accepts a definition whose edges
form a cycle — no validation happens, the workflow is created, stored in
the map and in redis, and returned with status `active`, so creation is
not rejected and workflow state is created. -/
theorem C2_counterexample :
    specHasCycle cyclicDef.edges = true ∧
    (createWorkflow emptyEngine "w1" cyclicDef).2 =
      { id := "w1", name := "cyclic", nodes := cyclicDef.nodes,
        edges := cyclicDef.edges, status := "active" } ∧
    mapGet (createWorkflow emptyEngine "w1" cyclicDef).1.workflows "w1" =
      some (createWorkflow emptyEngine "w1" cyclicDef).2 ∧
    mapGet (createWorkflow emptyEngine "w1" cyclicDef).1.redisStore "workflow:w1" =
      some (.wf (createWorkflow emptyEngine "w1" cyclicDef).2) :=
  ⟨rfl, rfl, rfl, rfl⟩

/-- C2 amended: `createWorkflow` performs no validation at all.  For every
definition — cyclic, with dangling edges, or with duplicate node ids —
it unconditionally builds the workflow record from the definition's
fields, stores it in the workflow map and the redis store, and returns
it; no `InvalidWorkflow` failure exists, and no execution state is
touched. -/
theorem C2_createWorkflow_never_validates (s : EngineState) (workflowId : String)
    (d : WorkflowDef) :
    (createWorkflow s workflowId d).2 =
      { id := workflowId, name := d.name, nodes := d.nodes, edges := d.edges,
        status := "active" } ∧
    mapGet (createWorkflow s workflowId d).1.workflows workflowId =
      some (createWorkflow s workflowId d).2 ∧
    (createWorkflow s workflowId d).1.executions = s.executions ∧
    (createWorkflow s workflowId d).1.queue = s.queue := by
  refine ⟨rfl, ?_, rfl, rfl⟩
  unfold createWorkflow
  exact mapGet_mapSet_self _ _ _

/-- C6 counterexample: registering the type `http` twice does not fail;
the second registration silently replaces the first. -/
theorem C6_counterexample :
    mapGet ((registerNode (registerNode emptyEngine "http" "FirstClass")
      "http" "SecondClass").nodes) "http" = some "SecondClass" ∧
    ("SecondClass" : String) ≠ "FirstClass" :=
  ⟨rfl, by decide⟩

/-- C6 amended: `registerNode` has no duplicate check and never fails:
a registration always succeeds, and registering under an already-present
type string replaces the earlier node class. -/
theorem C6_register_replaces (s : EngineState) (type cls : String) :
    mapGet (registerNode s type cls).nodes type = some cls := by
  unfold registerNode
  exact mapGet_mapSet_self _ _ _

/-- C9: executing an unknown workflow id throws synchronously
(`Workflow ... not found`) and leaves the entire engine state — the
executions map, the redis store, and the job queue — untouched. -/
theorem C9_missing_workflow_no_state (s : EngineState)
    (executionId workflowId : String) (input : JsValue)
    (h : mapGet s.workflows workflowId = none) :
    executeWorkflow s executionId workflowId input =
      (s, .error ("Workflow " ++ workflowId ++ " not found")) := by
  unfold executeWorkflow
  rw [h]

/-- C9 witness: the empty engine rejects the id `missing` and is returned
unchanged. -/
theorem C9_witness :
    mapGet emptyEngine.workflows "missing" = none ∧
    executeWorkflow emptyEngine "e" "missing" .null =
      (emptyEngine, .error "Workflow missing not found") :=
  ⟨rfl, C9_missing_workflow_no_state emptyEngine "e" "missing" .null rfl⟩

/-- A workflow whose `nodes` array lists its two source nodes in
descending id order (`b` before `a`); there are no edges, so both are
ready simultaneously at execution start. -/
def wfDescending : Workflow :=
  { id := "w", name := "two sources", status := "active",
    nodes := [⟨"b", "t", .null⟩, ⟨"a", "t", .null⟩],
    edges := [] }

/-- Engine holding `wfDescending` and a registered `t` node type. -/
def descState : EngineState :=
  { workflows := [("w", wfDescending)], executions := [], nodes := [("t", "C")],
    redisStore := [], queue := [], events := [] }

/-- C7 counterexample: two simultaneously-ready source nodes are enqueued
as `b` then `a` — the order of the workflow's `nodes` array — although
ascending `node_id` order would be `a` then `b` (`'a' < 'b'`), so the
claimed ascending-id tie-break does not exist. -/
theorem C7_counterexample :
    wfDescending.edges = [] ∧
    (executeWorkflow descState "e" "w" .null).1.queue.map Job.nodeId = ["b", "a"] ∧
    (["b", "a"] : List String) ≠ ["a", "b"] ∧
    'a' < 'b' :=
  ⟨rfl, rfl, by decide, by decide⟩

/-- C7 amended: simultaneously-ready nodes are enqueued in program order,
not sorted by node id: `executeWorkflow` queues the start nodes in the
order of the workflow's `nodes` array, and `executeNode` queues newly
ready successors in the order of the workflow's `edges` array. -/
theorem C7_enqueue_program_order :
    (∀ (s : EngineState) (executionId workflowId : String) (input : JsValue)
        (workflow : Workflow),
      mapGet s.workflows workflowId = some workflow →
      (executeWorkflow s executionId workflowId input).1.queue =
        s.queue ++ (workflow.nodes.filter
          (fun node => ! workflow.edges.any (fun edge => edge.target = node.id))).map
            (startJob workflowId executionId input)) ∧
    (∀ (run : NodeRunner) (s : EngineState)
        (workflowId executionId nodeId : String) (input : JsValue)
        (workflow : Workflow) (execution : Execution) (nodeConfig : NodeSpec)
        (cls : String) (result : JsValue),
      mapGet s.workflows workflowId = some workflow →
      mapGet s.executions executionId = some execution →
      workflow.nodes.find? (fun n => n.id = nodeId) = some nodeConfig →
      mapGet s.nodes nodeConfig.type = some cls →
      run nodeConfig.type nodeConfig.config input execution.nodeResults = .ok result →
      (executeNode run s workflowId executionId nodeId input).1.queue =
        s.queue ++ (workflow.edges.filter (fun edge => edge.source = nodeId)).filterMap
          (successorJob workflow (mapSet execution.nodeResults nodeId result)
            workflowId executionId)) := by
  constructor
  · intro s executionId workflowId input workflow hwf
    unfold executeWorkflow
    rw [hwf]
    dsimp only
    rw [foldl_queueNode]
  · intro run s workflowId executionId nodeId input workflow execution nodeConfig cls
      result hwf hex hnode hreg hrun
    rw [executeNode_ok_eq run s workflowId executionId nodeId input workflow execution
      nodeConfig cls result hwf hex hnode hreg hrun]
    unfold executeNodeOk
    dsimp only
    split <;> rfl

/-- C7 witness for the amended order characterization: on `descState` the
start-node part yields exactly the jobs for `b` then `a`, and on a
one-node workflow the successor part yields no job. -/
theorem C7_witness :
    mapGet descState.workflows "w" = some wfDescending ∧
    (executeWorkflow descState "e" "w" .null).1.queue =
      descState.queue ++ (wfDescending.nodes.filter
        (fun node => ! wfDescending.edges.any (fun edge => edge.target = node.id))).map
          (startJob "w" "e" .null) := by
  refine ⟨rfl, ?_⟩
  exact C7_enqueue_program_order.1 descState "e" "w" .null wfDescending rfl

/-- C1: after a node result is recorded by `executeNode`, the execution's
status is `completed` exactly when every node of the workflow has an
entry in `nodeResults`; and when that holds the end timestamp is set and
a single `workflow:completed` event is emitted. -/
theorem C1_completed_iff_all_results (run : NodeRunner) (s : EngineState)
    (workflowId executionId nodeId : String) (input : JsValue)
    (workflow : Workflow) (execution : Execution) (nodeConfig : NodeSpec)
    (cls : String) (result : JsValue)
    (hwf : mapGet s.workflows workflowId = some workflow)
    (hex : mapGet s.executions executionId = some execution)
    (hnode : workflow.nodes.find? (fun n => n.id = nodeId) = some nodeConfig)
    (hreg : mapGet s.nodes nodeConfig.type = some cls)
    (hrun : run nodeConfig.type nodeConfig.config input execution.nodeResults
      = .ok result)
    (hstatus : execution.status = "running") :
    ∃ ex', mapGet (executeNode run s workflowId executionId nodeId input).1.executions
        executionId = some ex' ∧
      (ex'.status = "completed" ↔
        workflow.nodes.all (fun node => hasOwnProperty ex'.nodeResults node.id) = true) ∧
      (ex'.status = "completed" →
        ex'.endTimeSet = true ∧
        (executeNode run s workflowId executionId nodeId input).1.events =
          s.events ++ [.workflowCompleted executionId ex'.nodeResults]) := by
  rw [executeNode_ok_eq run s workflowId executionId nodeId input workflow execution
    nodeConfig cls result hwf hex hnode hreg hrun]
  unfold executeNodeOk
  dsimp only
  split
  · rename_i hall
    refine ⟨_, mapGet_mapSet_self _ _ _, ?_, ?_⟩
    · simpa using hall
    · intro _
      exact ⟨rfl, rfl⟩
  · rename_i hall
    refine ⟨_, mapGet_mapSet_self _ _ _, ?_, ?_⟩
    · constructor
      · intro hc
        exact absurd (hstatus ▸ hc) (by decide)
      · intro hc
        exact absurd hc (by simpa using hall)
    · intro hc
      exact absurd (hstatus ▸ hc) (by decide)

/-- Single-node workflow used by the concrete witnesses. -/
def oneNodeWf : Workflow :=
  { id := "w", name := "one", status := "active",
    nodes := [⟨"a", "t", .null⟩], edges := [] }

/-- A running execution of `oneNodeWf` with no results yet. -/
def runningExec : Execution :=
  { id := "e", workflowId := "w", status := "running", data := .null,
    nodeResults := [], currentNodes := [], error := none, endTimeSet := false }

/-- Engine holding `oneNodeWf` with its running execution. -/
def oneNodeState : EngineState :=
  { workflows := [("w", oneNodeWf)], executions := [("e", runningExec)],
    nodes := [("t", "C")], redisStore := [], queue := [], events := [] }

/-- Node runner that always succeeds with the value 7. -/
def okRun : NodeRunner := fun _ _ _ _ => .ok (.num 7)

/-- C1 witness: on the single-node workflow the hypotheses hold
concretely and the completion property follows from the theorem. -/
theorem C1_witness :
    (mapGet oneNodeState.workflows "w" = some oneNodeWf ∧
     mapGet oneNodeState.executions "e" = some runningExec ∧
     oneNodeWf.nodes.find? (fun n => n.id = "a") = some ⟨"a", "t", .null⟩ ∧
     mapGet oneNodeState.nodes "t" = some "C" ∧
     okRun "t" .null .null [] = .ok (.num 7) ∧
     runningExec.status = "running") ∧
    (∃ ex', mapGet (executeNode okRun oneNodeState "w" "e" "a" .null).1.executions
        "e" = some ex' ∧
      (ex'.status = "completed" ↔
        oneNodeWf.nodes.all (fun node => hasOwnProperty ex'.nodeResults node.id) = true) ∧
      (ex'.status = "completed" →
        ex'.endTimeSet = true ∧
        (executeNode okRun oneNodeState "w" "e" "a" .null).1.events =
          oneNodeState.events ++ [.workflowCompleted "e" ex'.nodeResults])) :=
  ⟨⟨rfl, rfl, rfl, rfl, rfl, rfl⟩,
   C1_completed_iff_all_results okRun oneNodeState "w" "e" "a" .null oneNodeWf
     runningExec ⟨"a", "t", .null⟩ "C" (.num 7) rfl rfl rfl rfl rfl rfl⟩

/-- Node runner that always throws with the message `boom`. -/
def failRun : NodeRunner := fun _ _ _ _ => .error "boom"

/-- C3 counterexample: jobs are enqueued with `attempts: 3`, so a first
failure still has retry attempts remaining; yet a single failing attempt
on such a job immediately flips the execution's status from `running` to
`failed` — it is not left unchanged, and no `node_errors` /
schedulability analysis is involved. -/
theorem C3_counterexample :
    (queueNode emptyEngine "w" "e" "a" .null).queue.map Job.attempts = [3] ∧
    runningExec.status = "running" ∧
    (mapGet (executeNode failRun oneNodeState "w" "e" "a" .null).1.executions
      "e").map Execution.status = some "failed" ∧
    ("failed" : String) ≠ "running" :=
  ⟨rfl, rfl, rfl, by decide⟩

/-- C3 amended: every error thrown during a node attempt immediately sets
the execution's status to `failed` and stores the message in
`execution.error`, regardless of the retry attempts remaining on the job
(jobs carry `attempts: 3` with exponential backoff, and the rethrown
error is what lets the queue retry); there is no `node_errors` map and
no further-schedulability condition, and no successor is enqueued by the
failing attempt. -/
theorem C3_any_error_sets_failed (run : NodeRunner) (s : EngineState)
    (workflowId executionId nodeId : String) (input : JsValue)
    (workflow : Workflow) (execution : Execution) (nodeConfig : NodeSpec)
    (cls : String) (message : String)
    (hwf : mapGet s.workflows workflowId = some workflow)
    (hex : mapGet s.executions executionId = some execution)
    (hnode : workflow.nodes.find? (fun n => n.id = nodeId) = some nodeConfig)
    (hreg : mapGet s.nodes nodeConfig.type = some cls)
    (hrun : run nodeConfig.type nodeConfig.config input execution.nodeResults
      = .error message) :
    ∃ ex', mapGet (executeNode run s workflowId executionId nodeId input).1.executions
        executionId = some ex' ∧
      ex'.status = "failed" ∧
      ex'.error = some message ∧
      (executeNode run s workflowId executionId nodeId input).2 = .error message ∧
      (executeNode run s workflowId executionId nodeId input).1.queue = s.queue := by
  rw [executeNode_error_eq run s workflowId executionId nodeId input workflow execution
    nodeConfig cls message hwf hex hnode hreg hrun]
  exact ⟨_, mapGet_mapSet_self _ _ _, rfl, rfl, rfl, rfl⟩

/-- C3 witness: the amended failure behaviour at the concrete single-node
state, with the hypotheses discharged by evaluation. -/
theorem C3_witness :
    (mapGet oneNodeState.workflows "w" = some oneNodeWf ∧
     mapGet oneNodeState.executions "e" = some runningExec ∧
     oneNodeWf.nodes.find? (fun n => n.id = "a") = some ⟨"a", "t", .null⟩ ∧
     mapGet oneNodeState.nodes "t" = some "C" ∧
     failRun "t" .null .null [] = .error "boom") ∧
    (∃ ex', mapGet (executeNode failRun oneNodeState "w" "e" "a" .null).1.executions
        "e" = some ex' ∧
      ex'.status = "failed" ∧
      ex'.error = some "boom" ∧
      (executeNode failRun oneNodeState "w" "e" "a" .null).2 = .error "boom" ∧
      (executeNode failRun oneNodeState "w" "e" "a" .null).1.queue =
        oneNodeState.queue) :=
  ⟨⟨rfl, rfl, rfl, rfl, rfl⟩,
   C3_any_error_sets_failed failRun oneNodeState "w" "e" "a" .null oneNodeWf
     runningExec ⟨"a", "t", .null⟩ "C" "boom" rfl rfl rfl rfl rfl⟩

/-- C4: a node is never enqueued before all its predecessors have entries
in `nodeResults`.  Start of an execution: every queued job is an old job
or belongs to a node with no incoming edge (no predecessors), and every
such source node is enqueued immediately.  Node completion: every queued
job is an old job or has all the predecessors of its node in the updated
`nodeResults` at enqueue time. -/
theorem C4_no_premature_enqueue :
    (∀ (s : EngineState) (executionId workflowId : String) (input : JsValue)
        (workflow : Workflow),
      mapGet s.workflows workflowId = some workflow →
      ∀ j, j ∈ (executeWorkflow s executionId workflowId input).1.queue →
        j ∈ s.queue ∨ workflow.edges.filter (fun e => e.target = j.nodeId) = []) ∧
    (∀ (s : EngineState) (executionId workflowId : String) (input : JsValue)
        (workflow : Workflow),
      mapGet s.workflows workflowId = some workflow →
      ∀ n ∈ workflow.nodes, workflow.edges.filter (fun e => e.target = n.id) = [] →
        startJob workflowId executionId input n ∈
          (executeWorkflow s executionId workflowId input).1.queue) ∧
    (∀ (run : NodeRunner) (s : EngineState)
        (workflowId executionId nodeId : String) (input : JsValue)
        (workflow : Workflow) (execution : Execution) (nodeConfig : NodeSpec)
        (cls : String) (result : JsValue),
      mapGet s.workflows workflowId = some workflow →
      mapGet s.executions executionId = some execution →
      workflow.nodes.find? (fun n => n.id = nodeId) = some nodeConfig →
      mapGet s.nodes nodeConfig.type = some cls →
      run nodeConfig.type nodeConfig.config input execution.nodeResults = .ok result →
      ∀ j, j ∈ (executeNode run s workflowId executionId nodeId input).1.queue →
        j ∈ s.queue ∨
        (workflow.edges.filter (fun e => e.target = j.nodeId)).all
          (fun e => hasOwnProperty (mapSet execution.nodeResults nodeId result)
            e.source) = true) := by
  refine ⟨?_, ?_, ?_⟩
  · intro s executionId workflowId input workflow hwf j hj
    unfold executeWorkflow at hj
    rw [hwf] at hj
    dsimp only at hj
    rw [foldl_queueNode] at hj
    dsimp only at hj
    rcases List.mem_append.mp hj with hold | hnew
    · exact Or.inl hold
    · right
      obtain ⟨n, hn, hjn⟩ := List.mem_map.mp hnew
      obtain ⟨-, hfilt⟩ := List.mem_filter.mp hn
      have hnode : j.nodeId = n.id := by rw [← hjn]; rfl
      rw [hnode]
      rw [List.filter_eq_nil_iff]
      intro e he
      have hany : workflow.edges.any (fun edge => edge.target = n.id) = false := by
        simpa using hfilt
      rw [List.any_eq_false] at hany
      simpa using hany e he
  · intro s executionId workflowId input workflow hwf n hn hfilt
    unfold executeWorkflow
    rw [hwf]
    dsimp only
    rw [foldl_queueNode]
    dsimp only
    refine List.mem_append_right _ (List.mem_map.mpr ⟨n, ?_, rfl⟩)
    refine List.mem_filter.mpr ⟨hn, ?_⟩
    have hany : workflow.edges.any (fun edge => edge.target = n.id) = false := by
      rw [List.any_eq_false]
      intro e he
      have := List.filter_eq_nil_iff.mp hfilt e he
      simpa using this
    simp [hany]
  · intro run s workflowId executionId nodeId input workflow execution nodeConfig cls
      result hwf hex hnode hreg hrun j hj
    rw [executeNode_ok_eq run s workflowId executionId nodeId input workflow execution
      nodeConfig cls result hwf hex hnode hreg hrun] at hj
    unfold executeNodeOk at hj
    dsimp only at hj
    have hj' : j ∈ s.queue ++ (workflow.edges.filter
        (fun edge => edge.source = nodeId)).filterMap
          (successorJob workflow (mapSet execution.nodeResults nodeId result)
            workflowId executionId) := by
      revert hj
      split <;> intro hj <;> exact hj
    rcases List.mem_append.mp hj' with hold | hnew
    · exact Or.inl hold
    · right
      obtain ⟨edge, hedge, hsucc⟩ := List.mem_filterMap.mp hnew
      obtain ⟨-, -, htarget, -, -, hall, -⟩ := successorJob_some hsucc
      rw [htarget]
      rw [List.all_eq_true] at hall ⊢
      intro e' he'
      exact hall e'.source (List.mem_map_of_mem _ he')

/-- Linear workflow a → b used by the scheduling witnesses. -/
def linearWf : Workflow :=
  { id := "w", name := "linear", status := "active",
    nodes := [⟨"a", "t", .null⟩, ⟨"b", "t", .null⟩],
    edges := [⟨"a", "b"⟩] }

/-- Engine holding `linearWf` with the running execution `e`. -/
def linearState : EngineState :=
  { workflows := [("w", linearWf)], executions := [("e", runningExec)],
    nodes := [("t", "C")], redisStore := [], queue := [], events := [] }

/-- C4 witness: on the linear workflow the source node `a` is enqueued at
execution start, and after `a` completes every queued job satisfies the
predecessor condition. -/
theorem C4_witness :
    (mapGet linearState.workflows "w" = some linearWf ∧
     NodeSpec.mk "a" "t" .null ∈ linearWf.nodes ∧
     linearWf.edges.filter (fun e => e.target = "a") = [] ∧
     mapGet linearState.executions "e" = some runningExec ∧
     linearWf.nodes.find? (fun n => n.id = "a") = some ⟨"a", "t", .null⟩ ∧
     mapGet linearState.nodes "t" = some "C" ∧
     okRun "t" .null .null [] = .ok (.num 7)) ∧
    startJob "w" "e2" .null ⟨"a", "t", .null⟩ ∈
      (executeWorkflow linearState "e2" "w" .null).1.queue ∧
    (∀ j, j ∈ (executeNode okRun linearState "w" "e" "a" .null).1.queue →
      j ∈ linearState.queue ∨
      (linearWf.edges.filter (fun e => e.target = j.nodeId)).all
        (fun e => hasOwnProperty (mapSet runningExec.nodeResults "a" (.num 7))
          e.source) = true) :=
  ⟨⟨rfl, List.mem_cons_self _ _, rfl, rfl, rfl, rfl, rfl⟩,
   C4_no_premature_enqueue.2.1 linearState "e2" "w" .null linearWf rfl
     ⟨"a", "t", .null⟩ (List.mem_cons_self _ _) rfl,
   C4_no_premature_enqueue.2.2 okRun linearState "w" "e" "a" .null linearWf
     runningExec ⟨"a", "t", .null⟩ "C" (.num 7) rfl rfl rfl rfl rfl⟩

/-- C5: the input a node is enqueued with.  At execution start every new
job belongs to a node with zero predecessors and carries the execution's
initial input; at node completion every new job belongs to a node with
at least one predecessor and carries the object whose keys are exactly
the node's predecessor ids and whose value at each key `p` is
`nodeResults[p]` — the map form is used whenever there is at least one
predecessor, including a single one. -/
theorem C5_input_assembly :
    (∀ (s : EngineState) (executionId workflowId : String) (input : JsValue)
        (workflow : Workflow),
      mapGet s.workflows workflowId = some workflow →
      ∀ j, j ∈ (executeWorkflow s executionId workflowId input).1.queue →
        j ∈ s.queue ∨
        (workflow.edges.filter (fun e => e.target = j.nodeId) = [] ∧
         j.input = input)) ∧
    (∀ (run : NodeRunner) (s : EngineState)
        (workflowId executionId nodeId : String) (input : JsValue)
        (workflow : Workflow) (execution : Execution) (nodeConfig : NodeSpec)
        (cls : String) (result : JsValue),
      mapGet s.workflows workflowId = some workflow →
      mapGet s.executions executionId = some execution →
      workflow.nodes.find? (fun n => n.id = nodeId) = some nodeConfig →
      mapGet s.nodes nodeConfig.type = some cls →
      run nodeConfig.type nodeConfig.config input execution.nodeResults = .ok result →
      ∀ j, j ∈ (executeNode run s workflowId executionId nodeId input).1.queue →
        j ∈ s.queue ∨
        ((workflow.edges.filter (fun e => e.target = j.nodeId)).map
            (fun e => e.source) ≠ [] ∧
         ∃ fields, j.input = .obj fields ∧
           (∀ p, hasOwnProperty fields p = true ↔
             p ∈ (workflow.edges.filter (fun e => e.target = j.nodeId)).map
               (fun e => e.source)) ∧
           (∀ p, p ∈ (workflow.edges.filter (fun e => e.target = j.nodeId)).map
               (fun e => e.source) →
             jsIndex fields p =
               jsIndex (mapSet execution.nodeResults nodeId result) p))) := by
  constructor
  · intro s executionId workflowId input workflow hwf j hj
    unfold executeWorkflow at hj
    rw [hwf] at hj
    dsimp only at hj
    rw [foldl_queueNode] at hj
    dsimp only at hj
    rcases List.mem_append.mp hj with hold | hnew
    · exact Or.inl hold
    · right
      obtain ⟨n, hn, hjn⟩ := List.mem_map.mp hnew
      obtain ⟨-, hfilt⟩ := List.mem_filter.mp hn
      have hnode : j.nodeId = n.id := by rw [← hjn]; rfl
      have hinput : j.input = input := by rw [← hjn]; rfl
      refine ⟨?_, hinput⟩
      rw [hnode]
      rw [List.filter_eq_nil_iff]
      intro e he
      have hany : workflow.edges.any (fun edge => edge.target = n.id) = false := by
        simpa using hfilt
      rw [List.any_eq_false] at hany
      simpa using hany e he
  · intro run s workflowId executionId nodeId input workflow execution nodeConfig cls
      result hwf hex hnode hreg hrun j hj
    rw [executeNode_ok_eq run s workflowId executionId nodeId input workflow execution
      nodeConfig cls result hwf hex hnode hreg hrun] at hj
    unfold executeNodeOk at hj
    dsimp only at hj
    have hj' : j ∈ s.queue ++ (workflow.edges.filter
        (fun edge => edge.source = nodeId)).filterMap
          (successorJob workflow (mapSet execution.nodeResults nodeId result)
            workflowId executionId) := by
      revert hj
      split <;> intro hj <;> exact hj
    rcases List.mem_append.mp hj' with hold | hnew
    · exact Or.inl hold
    · right
      obtain ⟨edge, hedge, hsucc⟩ := List.mem_filterMap.mp hnew
      obtain ⟨-, -, htarget, -, -, -, hinput⟩ := successorJob_some hsucc
      obtain ⟨hedge_mem, -⟩ := List.mem_filter.mp hedge
      rw [htarget]
      constructor
      · apply List.ne_nil_of_mem (a := edge.source)
        exact List.mem_map_of_mem _ (List.mem_filter.mpr ⟨hedge_mem, by simp⟩)
      · refine ⟨_, hinput, ?_, ?_⟩
        · intro p
          exact hasOwn_buildMergedInput_iff _ _ p
        · intro p hp
          exact jsIndex_buildMergedInput _ _ p hp

/-- C5 witness: after node `a` of the linear workflow completes, every
new queued job (the job for `b`) carries the predecessor-keyed map form
of the input. -/
theorem C5_witness :
    (mapGet linearState.workflows "w" = some linearWf ∧
     mapGet linearState.executions "e" = some runningExec ∧
     linearWf.nodes.find? (fun n => n.id = "a") = some ⟨"a", "t", .null⟩ ∧
     mapGet linearState.nodes "t" = some "C" ∧
     okRun "t" .null .null [] = .ok (.num 7)) ∧
    (∀ j, j ∈ (executeNode okRun linearState "w" "e" "a" .null).1.queue →
      j ∈ linearState.queue ∨
      ((linearWf.edges.filter (fun e => e.target = j.nodeId)).map
          (fun e => e.source) ≠ [] ∧
       ∃ fields, j.input = .obj fields ∧
         (∀ p, hasOwnProperty fields p = true ↔
           p ∈ (linearWf.edges.filter (fun e => e.target = j.nodeId)).map
             (fun e => e.source)) ∧
         (∀ p, p ∈ (linearWf.edges.filter (fun e => e.target = j.nodeId)).map
             (fun e => e.source) →
           jsIndex fields p =
             jsIndex (mapSet runningExec.nodeResults "a" (.num 7)) p))) :=
  ⟨⟨rfl, rfl, rfl, rfl, rfl⟩,
   C5_input_assembly.2 okRun linearState "w" "e" "a" .null linearWf runningExec
     ⟨"a", "t", .null⟩ "C" (.num 7) rfl rfl rfl rfl rfl⟩

theorem exceptBind_ok {ε α β : Type} {x : Except ε α} {f : α → Except ε β} {r : β}
    (h : x >>= f = Except.ok r) : ∃ a, x = Except.ok a ∧ f a = Except.ok r := by
  cases x with
  | error e => simp [Bind.bind, Except.bind] at h
  | ok a => exact ⟨a, rfl, by simpa [Bind.bind, Except.bind] using h⟩

/-- C8: the four built-in node types never let an error escape `execute`:
whatever a `try` body throws is converted by `handleError` into the
ordinary result `{ success: false, error: message, stack: undefined }`;
an HTTP response resolves for every status (`validateStatus: () => true`)
and yields `success: response.status < 400`, so a status of 400 or more
is a result with `success: false`, not an exception.  Consequently, when
a node run returns a value — successful or not — the engine records it in
`nodeResults`, resolves the job (`Except.ok`, so the queue never
retries), and does not mark the execution failed. -/
theorem C8_node_errors_become_results :
    (∀ e, handleError e =
      .obj [("success", .bool false), ("error", .str e), ("stack", .undefined)]) ∧
    (∀ send config input context now e,
      httpTry send config input context now = .error e →
      httpExecute send config input context now = handleError e) ∧
    (∀ (resp : HttpResponse) (config input context : JsValue) (now : String)
        (r : JsValue),
      httpTry (fun _ => .ok resp) config input context now = .ok r →
      r = .obj [("success", .bool (decide (resp.status < 400))),
                ("status", .num resp.status), ("headers", resp.headers),
                ("data", resp.data), ("timestamp", .str now)]) ∧
    (∀ poolQuery config input context now e,
      dbTry poolQuery config input context now = .error e →
      databaseExecute poolQuery config input context now = handleError e) ∧
    (∀ vmRun regexTest config input context now e,
      conditionalTry vmRun regexTest config input context now = .error e →
      conditionalExecute vmRun regexTest config input context now = handleError e) ∧
    (∀ vmCode vmExpr config input context now e,
      transformerTry vmCode vmExpr config input context now = .error e →
      transformerExecute vmCode vmExpr config input context now = handleError e) ∧
    (∀ (run : NodeRunner) (s : EngineState)
        (workflowId executionId nodeId : String) (input : JsValue)
        (workflow : Workflow) (execution : Execution) (nodeConfig : NodeSpec)
        (cls : String) (result : JsValue),
      mapGet s.workflows workflowId = some workflow →
      mapGet s.executions executionId = some execution →
      workflow.nodes.find? (fun n => n.id = nodeId) = some nodeConfig →
      mapGet s.nodes nodeConfig.type = some cls →
      run nodeConfig.type nodeConfig.config input execution.nodeResults = .ok result →
      execution.status = "running" →
      ∃ ex', mapGet (executeNode run s workflowId executionId nodeId input).1.executions
          executionId = some ex' ∧
        mapGet ex'.nodeResults nodeId = some result ∧
        (executeNode run s workflowId executionId nodeId input).2 = .ok result ∧
        ex'.status ≠ "failed") := by
  refine ⟨fun e => rfl, ?_, ?_, ?_, ?_, ?_, ?_⟩
  · intro send config input context now e h
    simp [httpExecute, h]
  · intro resp config input context now r h
    unfold httpTry at h
    obtain ⟨url, hu, h⟩ := exceptBind_ok h
    obtain ⟨methodRaw, hm, h⟩ := exceptBind_ok h
    obtain ⟨headersRaw, hh, h⟩ := exceptBind_ok h
    obtain ⟨paramsRaw, hp, h⟩ := exceptBind_ok h
    obtain ⟨dataRaw, hd, h⟩ := exceptBind_ok h
    obtain ⟨processedUrl, hpu, h⟩ := exceptBind_ok h
    obtain ⟨processedHeaders, hph, h⟩ := exceptBind_ok h
    obtain ⟨processedParams, hpp, h⟩ := exceptBind_ok h
    dsimp only at h
    by_cases ht : truthy dataRaw = true
    · rw [if_pos ht] at h
      obtain ⟨processedData, hpd, h⟩ := exceptBind_ok h
      obtain ⟨response, hresp, h⟩ := exceptBind_ok h
      have hr : response = resp := by
        simpa using hresp.symm
      subst hr
      simpa [Bind.bind, Except.bind, pure, Except.pure] using h.symm
    · rw [if_neg ht] at h
      obtain ⟨processedData, hpd, h⟩ := exceptBind_ok h
      obtain ⟨response, hresp, h⟩ := exceptBind_ok h
      have hr : response = resp := by
        simpa using hresp.symm
      subst hr
      simpa [Bind.bind, Except.bind, pure, Except.pure] using h.symm
  · intro poolQuery config input context now e h
    simp [databaseExecute, h]
  · intro vmRun regexTest config input context now e h
    simp [conditionalExecute, h]
  · intro vmCode vmExpr config input context now e h
    simp [transformerExecute, h]
  · intro run s workflowId executionId nodeId input workflow execution nodeConfig cls
      result hwf hex hnode hreg hrun hstatus
    rw [executeNode_ok_eq run s workflowId executionId nodeId input workflow execution
      nodeConfig cls result hwf hex hnode hreg hrun]
    unfold executeNodeOk
    dsimp only
    split
    · refine ⟨_, mapGet_mapSet_self _ _ _, mapGet_mapSet_self _ _ _, rfl, ?_⟩
      intro hc
      have hc' : ("completed" : String) = "failed" := hc
      exact absurd hc' (by decide)
    · refine ⟨_, mapGet_mapSet_self _ _ _, mapGet_mapSet_self _ _ _, rfl, ?_⟩
      intro hc
      have hc' : execution.status = "failed" := hc
      rw [hstatus] at hc'
      exact absurd hc' (by decide)

/-- Result object delivered by the concrete 500-status HTTP call of the
C8 witness. -/
def http500Result : JsValue :=
  .obj [("success", .bool false), ("status", .num 500), ("headers", .obj []),
        ("data", .null), ("timestamp", .str "ts")]

/-- Node runner returning a failure-shaped result value, as the built-in
node types do after catching an error. -/
def failResultRun : NodeRunner := fun _ _ _ _ => .ok (handleError "oops")

/-- C8 witness: concrete instances of every part — a thrown error in each
of the four node types becomes a `handleError` result; a 500-status
response resolves to a `success: false` result; and the engine records a
failure-shaped node result as an ordinary result without failing the
execution or rejecting the job. -/
theorem C8_witness :
    (httpTry (fun _ => .error "never") .null .null (.obj []) "ts" =
      .error "Cannot read properties of null (reading 'url')" ∧
     httpExecute (fun _ => .error "never") .null .null (.obj []) "ts" =
      handleError "Cannot read properties of null (reading 'url')") ∧
    (httpTry (fun _ => .ok ⟨500, .obj [], .null⟩) (.obj [("url", .str "http://x")])
        (.obj []) (.obj []) "ts" = .ok http500Result ∧
     http500Result =
      .obj [("success", .bool (decide ((500 : Int) < 400))), ("status", .num 500),
            ("headers", .obj []), ("data", .null), ("timestamp", .str "ts")]) ∧
    (dbTry (fun _ => .error "db down") (.obj [("query", .num 1)]) .null (.obj [])
        "ts" = .error "db down" ∧
     databaseExecute (fun _ => .error "db down") (.obj [("query", .num 1)]) .null
        (.obj []) "ts" = handleError "db down") ∧
    (conditionalTry (fun _ _ _ => .error "x") (fun _ _ => .error "x") .null .null
        (.obj []) "ts" = .error "Cannot read properties of null (reading 'condition')" ∧
     conditionalExecute (fun _ _ _ => .error "x") (fun _ _ => .error "x") .null .null
        (.obj []) "ts" =
      handleError "Cannot read properties of null (reading 'condition')") ∧
    (transformerTry (fun _ _ _ => .error "x") (fun _ _ _ => .error "x") .null .null
        (.obj []) "ts" = .error "Cannot read properties of null (reading 'template')" ∧
     transformerExecute (fun _ _ _ => .error "x") (fun _ _ _ => .error "x") .null
        .null (.obj []) "ts" =
      handleError "Cannot read properties of null (reading 'template')") ∧
    (∃ ex', mapGet (executeNode failResultRun oneNodeState "w" "e" "a" .null).1.executions
        "e" = some ex' ∧
      mapGet ex'.nodeResults "a" = some (handleError "oops") ∧
      (executeNode failResultRun oneNodeState "w" "e" "a" .null).2 =
        .ok (handleError "oops") ∧
      ex'.status ≠ "failed") :=
  ⟨⟨rfl, C8_node_errors_become_results.2.1 (fun _ => .error "never") .null .null
      (.obj []) "ts" _ rfl⟩,
   ⟨rfl, C8_node_errors_become_results.2.2.1 ⟨500, .obj [], .null⟩
      (.obj [("url", .str "http://x")]) (.obj []) (.obj []) "ts" http500Result rfl⟩,
   ⟨rfl, C8_node_errors_become_results.2.2.2.1 (fun _ => .error "db down")
      (.obj [("query", .num 1)]) .null (.obj []) "ts" _ rfl⟩,
   ⟨rfl, C8_node_errors_become_results.2.2.2.2.1 (fun _ _ _ => .error "x")
      (fun _ _ => .error "x") .null .null (.obj []) "ts" _ rfl⟩,
   ⟨rfl, C8_node_errors_become_results.2.2.2.2.2.1 (fun _ _ _ => .error "x")
      (fun _ _ _ => .error "x") .null .null (.obj []) "ts" _ rfl⟩,
   C8_node_errors_become_results.2.2.2.2.2.2 failResultRun oneNodeState "w" "e" "a"
     .null oneNodeWf runningExec ⟨"a", "t", .null⟩ "C" (handleError "oops")
     rfl rfl rfl rfl rfl rfl⟩

theorem string_mk_toList (s : String) : String.mk s.toList = s := rfl

theorem interpStrAux_falsy_id (data : List (String × JsValue))
    (hfalsy : data.all (fun kv => ! truthy kv.2) = true) :
    ∀ (n : Nat) (l : List Char), l.length ≤ n → interpStrAux data l = l := by
  have hval : ∀ key, truthy (jsIndex data key) = false := by
    intro key
    unfold jsIndex
    cases hm : mapGet data key with
    | none => rfl
    | some v =>
      have hmem := mapGet_mem hm
      have := List.all_eq_true.mp hfalsy _ hmem
      simpa using this
  intro n
  induction n with
  | zero =>
    intro l hl
    have : l = [] := List.eq_nil_of_length_eq_zero (Nat.le_zero.mp hl)
    subst this
    simp [interpStrAux]
  | succ n ih =>
    intro l hl
    match l with
    | [] => simp [interpStrAux]
    | c :: cs =>
      unfold interpStrAux
      split
      · rename_i key rest heq
        rw [hval key]
        simp only [Bool.false_eq_true, if_neg]
        have hlt := matchPlaceholder_consumes heq
        have hrest : interpStrAux data rest = rest := by
          apply ih
          simp only [List.length_cons] at hl hlt
          omega
        rw [hrest]
        have hdec := matchPlaceholder_eq heq
        rw [hdec]
        simp
      · rename_i heq
        have : interpStrAux data cs = cs := by
          apply ih
          simp only [List.length_cons] at hl
          omega
        rw [this]
theorem takeWord_append_brace (w rest : List Char) (hw : w.all wordChar = true) :
    takeWord (w ++ '}' :: '}' :: rest) = (w, '}' :: '}' :: rest) := by
  have hbrace : wordChar '}' = false := by decide
  induction w with
  | nil =>
    simp [takeWord, List.takeWhile_cons, List.dropWhile_cons, hbrace]
  | cons c cs ih =>
    have hc : wordChar c = true := (List.all_cons .. ▸ hw |> Bool.and_elim_left)
    have hcs : cs.all wordChar = true := (List.all_cons .. ▸ hw |> Bool.and_elim_right)
    have ih' := ih hcs
    simp only [takeWord, Prod.mk.injEq, List.cons_append, List.takeWhile_cons,
      List.dropWhile_cons, hc, if_true] at ih' ⊢
    exact ⟨congrArg (c :: ·) ih'.1, ih'.2⟩
theorem matchPlaceholder_cons (tail : List Char) :
    matchPlaceholder ('{' :: '{' :: tail) =
      (match takeWord tail with
       | ([], _) => none
       | (w, '}' :: '}' :: rest') => some (String.mk w, rest')
       | (_, _) => none) := rfl
theorem matchPlaceholder_of_key (k : String) (rest : List Char)
    (hne : k.toList ≠ []) (hw : k.toList.all wordChar = true) :
    matchPlaceholder ('{' :: '{' :: k.toList ++ '}' :: '}' :: rest) = some (k, rest) := by
  obtain ⟨c, cs, hk⟩ : ∃ c cs, k.toList = c :: cs := by
    cases hkk : k.toList with
    | nil => exact absurd hkk hne
    | cons c cs => exact ⟨c, cs, rfl⟩
  simp only [List.cons_append]
  rw [matchPlaceholder_cons]
  rw [takeWord_append_brace _ _ hw]
  split
  · rename_i snd heq
    simp only [Prod.mk.injEq] at heq
    exact absurd heq.1 hne
  · rename_i w rest' heq
    simp only [Prod.mk.injEq, List.cons.injEq, true_and] at heq
    rw [← heq.1, string_mk_toList, heq.2]
  · rename_i hnp heq
    simp only [Prod.mk.injEq] at heq
    exact (hnp rest heq.2.symm).elim

/-- One scanner step at a placeholder: the match is replaced by the
coerced value when `data[key]` is truthy and kept literally otherwise,
and the scan proceeds on the remainder — for arbitrary `data`. -/
theorem interpStrAux_placeholder (data : List (String × JsValue)) (k : String)
    (rest : List Char) (hne : k.toList ≠ []) (hw : k.toList.all wordChar = true) :
    interpStrAux data ('{' :: '{' :: k.toList ++ '}' :: '}' :: rest) =
      (if truthy (jsIndex data k) then (jsToString (jsIndex data k)).toList
       else '{' :: '{' :: k.toList ++ '}' :: '}' :: []) ++ interpStrAux data rest := by
  have hm := matchPlaceholder_of_key k rest hne hw
  simp only [List.cons_append] at hm ⊢
  conv_lhs => unfold interpStrAux
  split
  · rename_i key' rest' hmp
    rw [hm] at hmp
    simp only [Option.some.injEq, Prod.mk.injEq] at hmp
    rw [← hmp.1, ← hmp.2]
    simp only [List.cons_append]
  · rename_i hmp
    rw [hm] at hmp
    exact absurd hmp (by simp)

/-- C10: `HTTPNode.interpolate` substitutes a `{{key}}` placeholder only
when `data[key]` is truthy, key by key and for arbitrary mixed data: a
placeholder whose key reads falsy (absent keys read as `undefined`,
which is falsy) is emitted literally while scanning continues on the
remainder, a placeholder whose key reads truthy is replaced by the
string coercion of the value, a non-matching position passes its
character through, and templates that are neither strings nor objects —
booleans, numbers, `undefined` — are returned unmodified. -/
theorem C10_interpolate_truthy_only :
    (∀ (data : List (String × JsValue)) (s : String),
      interpolate (.str s) data = .ok (.str (String.mk (interpStrAux data s.toList)))) ∧
    (∀ (data : List (String × JsValue)) (k : String),
      mapGet data k = none → truthy (jsIndex data k) = false) ∧
    (∀ (data : List (String × JsValue)) (k : String) (rest : List Char),
      k.toList ≠ [] → k.toList.all wordChar = true →
      truthy (jsIndex data k) = false →
      interpStrAux data ('{' :: '{' :: k.toList ++ '}' :: '}' :: rest) =
        '{' :: '{' :: k.toList ++ '}' :: '}' :: interpStrAux data rest) ∧
    (∀ (data : List (String × JsValue)) (k : String) (rest : List Char),
      k.toList ≠ [] → k.toList.all wordChar = true →
      truthy (jsIndex data k) = true →
      interpStrAux data ('{' :: '{' :: k.toList ++ '}' :: '}' :: rest) =
        (jsToString (jsIndex data k)).toList ++ interpStrAux data rest) ∧
    (∀ (data : List (String × JsValue)) (c : Char) (cs : List Char),
      matchPlaceholder (c :: cs) = none →
      interpStrAux data (c :: cs) = c :: interpStrAux data cs) ∧
    (∀ data b, interpolate (.bool b) data = .ok (.bool b)) ∧
    (∀ data n, interpolate (.num n) data = .ok (.num n)) ∧
    (∀ data, interpolate .undefined data = .ok .undefined) := by
  refine ⟨fun data s => rfl, ?_, ?_, ?_, ?_, fun data b => rfl, fun data n => rfl,
    fun data => rfl⟩
  · intro data k h
    simp [jsIndex, h, truthy]
  · intro data k rest hne hw hf
    rw [interpStrAux_placeholder data k rest hne hw]
    rw [hf]
    simp [List.cons_append, List.append_assoc]
  · intro data k rest hne hw ht
    rw [interpStrAux_placeholder data k rest hne hw]
    rw [ht]
    simp
  · intro data c cs h
    conv_lhs => unfold interpStrAux
    split
    · rename_i key' rest' hmp
      rw [h] at hmp
      exact absurd hmp (by simp)
    · rfl

/-- C10 witness: with the mixed data `{ a: "x", k: 0 }` the template
`{{k}}{{a}}` keeps the falsy key's placeholder `{{k}}` literally while
the truthy key's placeholder `{{a}}` is substituted; an unknown key `z`
reads falsy; a number template passes through unchanged. -/
theorem C10_witness :
    ("k".toList ≠ [] ∧ "k".toList.all wordChar = true ∧
     truthy (jsIndex [("a", JsValue.str "x"), ("k", JsValue.num 0)] "k") = false ∧
     "a".toList ≠ [] ∧ "a".toList.all wordChar = true ∧
     truthy (jsIndex [("a", JsValue.str "x"), ("k", JsValue.num 0)] "a") = true ∧
     mapGet [("a", JsValue.str "x"), ("k", JsValue.num 0)] "z" = none) ∧
    interpStrAux [("a", JsValue.str "x"), ("k", JsValue.num 0)]
        ('{' :: '{' :: "k".toList ++ '}' :: '}' ::
          ('{' :: '{' :: "a".toList ++ '}' :: '}' :: [])) =
      '{' :: '{' :: "k".toList ++ '}' :: '}' ::
        interpStrAux [("a", JsValue.str "x"), ("k", JsValue.num 0)]
          ('{' :: '{' :: "a".toList ++ '}' :: '}' :: []) ∧
    interpStrAux [("a", JsValue.str "x"), ("k", JsValue.num 0)]
        ('{' :: '{' :: "a".toList ++ '}' :: '}' :: []) =
      (jsToString (jsIndex [("a", JsValue.str "x"), ("k", JsValue.num 0)] "a")).toList ++
        interpStrAux [("a", JsValue.str "x"), ("k", JsValue.num 0)] [] ∧
    truthy (jsIndex [("a", JsValue.str "x"), ("k", JsValue.num 0)] "z") = false ∧
    interpolate (.num 42) [("a", JsValue.str "x"), ("k", JsValue.num 0)] =
      .ok (.num 42) :=
  ⟨⟨by decide, by decide, rfl, by decide, by decide, rfl, rfl⟩,
   C10_interpolate_truthy_only.2.2.1 [("a", JsValue.str "x"), ("k", JsValue.num 0)]
     "k" ('{' :: '{' :: "a".toList ++ '}' :: '}' :: []) (by decide) (by decide) rfl,
   C10_interpolate_truthy_only.2.2.2.1 [("a", JsValue.str "x"), ("k", JsValue.num 0)]
     "a" [] (by decide) (by decide) rfl,
   C10_interpolate_truthy_only.2.1 [("a", JsValue.str "x"), ("k", JsValue.num 0)]
     "z" rfl,
   C10_interpolate_truthy_only.2.2.2.2.2.2.1 [("a", JsValue.str "x"),
     ("k", JsValue.num 0)] 42⟩
